import Mathlib

/-!
Verification of the VarUint (CompactSize) codec in
`src/blockchain/proto/varuint.rs` of rusty-blockparser.

The codec is embedded shallowly: machine integers become `Nat` (with
explicit bounds where width matters), byte buffers become `List Nat`
whose entries are bytes (`< 256`), the byte-oriented reader becomes a
`List Nat` that is consumed front-to-first, and fallible reads return
`Except IoError`.
-/

namespace RustyBlockparser

/-- Modelled from the spec: the little-endian fixed-width integer-to-bytes
conversion utility (`le::u16_to_array` / `u32_to_array` / `u64_to_array`,
code of this repository that is not under `src/`). `leBytes w v` is the
`w`-byte little-endian representation of `v`. -/
def leBytes : Nat → Nat → List Nat
  | 0, _ => []
  | w + 1, v => v % 256 :: leBytes w (v / 256)

/-- Modelled from the spec: the value denoted by a little-endian byte
sequence (the reading direction of the same external utility, used by
`byteorder`-style reads of u16/u32/u64). -/
def leValue : List Nat → Nat
  | [] => 0
  | b :: bs => b + 256 * leValue bs

/-- The `VarUint` value object: `value` is the logical numeric value
(`pub value: u64`), `buf` the raw little-endian serialized bytes
(`buf: Vec<u8>`). -/
structure VarUint where
  value : Nat
  buf : List Nat
deriving DecidableEq

/-- Errors a decode can surface: a short read / exhausted source
(`io::ErrorKind::UnexpectedEof`, produced by the reader) or the
defensive fallback (`io::ErrorKind::InvalidData`). -/
inductive IoError where
  | unexpectedEof
  | invalidData
deriving DecidableEq

/-- Modelled from the spec: read exactly one byte from the byte-oriented
source (`reader.read_u8()`), failing when the source is exhausted. -/
def readU8 (s : List Nat) : Except IoError (Nat × List Nat) :=
  match s with
  | [] => .error .unexpectedEof
  | b :: rest => .ok (b, rest)

/-- Modelled from the spec: read exactly `w` bytes as a little-endian
unsigned integer (`reader.read_u16/u32/u64::<LittleEndian>()`), failing
on a short read with no bytes delivered. -/
def readLE (w : Nat) (s : List Nat) : Except IoError (Nat × List Nat) :=
  if w ≤ s.length then .ok (leValue (s.take w), s.drop w)
  else .error .unexpectedEof

/-- The internal constructor `VarUint::new`, with the `> 999999` warning
made explicit: the second component records whether the diagnostic log
line fires. -/
def VarUint.newLogged (value : Nat) (buf : List Nat) : VarUint × Bool :=
  let v : VarUint := { value := value, buf := buf }
  (v, decide (v.value > 999999))

/-- `VarUint::new` as seen by its callers: the constructed value object
(the warning is logging only). -/
def VarUint.new (value : Nat) (buf : List Nat) : VarUint :=
  (VarUint.newLogged value buf).fst

/-- `impl From<u8> for VarUint`: `VarUint::new(value as u64, vec![value])`. -/
def VarUint.fromU8 (value : Nat) : VarUint :=
  VarUint.new value [value]

/-- `impl From<u16> for VarUint`: the byte `0xfd` followed by the two
little-endian bytes of `value`. -/
def VarUint.fromU16 (value : Nat) : VarUint :=
  VarUint.new value (0xfd :: leBytes 2 value)

/-- `impl From<u32> for VarUint`: the byte `0xfe` followed by the four
little-endian bytes of `value`. -/
def VarUint.fromU32 (value : Nat) : VarUint :=
  VarUint.new value (0xfe :: leBytes 4 value)

/-- `impl From<u64> for VarUint`: the byte `0xff` followed by the eight
little-endian bytes of `value`. -/
def VarUint.fromU64 (value : Nat) : VarUint :=
  VarUint.new value (0xff :: leBytes 8 value)

/-- `VarUint::read_from`: read the first length byte, dispatch on it, and
on the marker values read the corresponding little-endian payload. The
result carries the unconsumed remainder of the source. -/
def VarUint.read_from (s : List Nat) : Except IoError (VarUint × List Nat) :=
  match readU8 s with
  | .error e => .error e
  | .ok (first, rest) =>
    if first ≤ 0xfc then
      .ok (VarUint.fromU8 first, rest)
    else if first = 0xfd then
      match readLE 2 rest with
      | .error e => .error e
      | .ok (v, r2) => .ok (VarUint.fromU16 v, r2)
    else if first = 0xfe then
      match readLE 4 rest with
      | .error e => .error e
      | .ok (v, r2) => .ok (VarUint.fromU32 v, r2)
    else if first = 0xff then
      match readLE 8 rest with
      | .error e => .error e
      | .ok (v, r2) => .ok (VarUint.fromU64 v, r2)
    else
      .error .invalidData

/-- `impl ToRaw for VarUint`: `to_bytes` returns (a copy of) the owned
byte buffer. -/
def VarUint.to_bytes (v : VarUint) : List Nat :=
  v.buf

/-- Modelled from the spec: the canonical minimal-width encoding defined
by the size-class rule (spec sections 4 and 6): values 0 to 252 are one
bare byte, 253 to 65535 use marker `0xfd` with two little-endian bytes,
up to 2^32 - 1 use `0xfe` with four bytes, and larger values use `0xff`
with eight bytes. Stated from the spec so the codec's output can be
compared against it. -/
def specCanonicalEncoding (v : Nat) : List Nat :=
  if v ≤ 0xfc then [v]
  else if v ≤ 0xffff then 0xfd :: leBytes 2 v
  else if v ≤ 0xffffffff then 0xfe :: leBytes 4 v
  else 0xff :: leBytes 8 v

/-! ## Helper lemmas -/

theorem leBytes_length (w v : Nat) : (leBytes w v).length = w := by
  induction w generalizing v with
  | zero => rfl
  | succ w ih => simp [leBytes, ih]

theorem leValue_leBytes (w v : Nat) : leValue (leBytes w v) = v % 256 ^ w := by
  induction w generalizing v with
  | zero => simp [leBytes, leValue, Nat.mod_one]
  | succ w ih =>
    have h : (256 : Nat) ^ (w + 1) = 256 * 256 ^ w := by ring
    simp [leBytes, leValue, ih, h, Nat.mod_mul]

theorem leValue_leBytes_of_lt {w v : Nat} (h : v < 256 ^ w) :
    leValue (leBytes w v) = v := by
  rw [leValue_leBytes, Nat.mod_eq_of_lt h]

theorem leBytes_leValue (bs : List Nat) (hb : ∀ b ∈ bs, b < 256) :
    leBytes bs.length (leValue bs) = bs := by
  induction bs with
  | nil => rfl
  | cons b bs ih =>
    have hblt : b < 256 := hb b (List.mem_cons_self b bs)
    have hrest : ∀ x ∈ bs, x < 256 := fun x hx => hb x (List.mem_cons_of_mem b hx)
    simp only [List.length_cons, leBytes, leValue]
    have hmod : (b + 256 * leValue bs) % 256 = b := by omega
    have hdiv : (b + 256 * leValue bs) / 256 = leValue bs := by omega
    rw [hmod, hdiv, ih hrest]

theorem readLE_error {w : Nat} {s : List Nat} {e : IoError}
    (h : readLE w s = .error e) : e = .unexpectedEof := by
  unfold readLE at h
  split at h
  · exact absurd h (by simp)
  · exact (Except.error.injEq _ _).mp h |>.symm

/-! ## Claim theorems -/

/-- C6: `to_bytes` returns the `VarUint`'s owned encoded buffer. In this
pure embedding the function depends on nothing but its argument, so
repeated calls return equal byte sequences and the `VarUint`'s `value`
and `buf` fields are left untouched. -/
theorem claim6_to_bytes_pure (v : VarUint) : v.to_bytes = v.buf :=
  rfl

/-- C7: the greater-than-999999 diagnostic check never blocks or alters
construction: `VarUint::new` always succeeds and returns the value and
buffer it was given regardless of the warning flag, and every
width-specific constructor produces the same value and encoded bytes for
every input, above or below the threshold. -/
theorem claim7_diagnostic_frame (v : Nat) (buf : List Nat) :
    VarUint.new v buf = { value := v, buf := buf }
    ∧ (VarUint.newLogged v buf).fst = VarUint.new v buf
    ∧ VarUint.fromU8 v = { value := v, buf := [v] }
    ∧ VarUint.fromU16 v = { value := v, buf := 0xfd :: leBytes 2 v }
    ∧ VarUint.fromU32 v = { value := v, buf := 0xfe :: leBytes 4 v }
    ∧ VarUint.fromU64 v = { value := v, buf := 0xff :: leBytes 8 v } :=
  ⟨rfl, rfl, rfl, rfl, rfl, rfl⟩

/-- C8: the concrete encoding vectors: 250 as u8 gives `[0xfa]`; 4444 and
515 as u16 give their 3-byte forms; 3333333333 as u32 gives its 5-byte
form; 9000000000000000000 as u64 gives its 9-byte form; and decoding the
stream `[0xfe, 0x55, 0xa1, 0xae, 0xc6]` yields a `VarUint` whose bytes
are that same 5-byte sequence unchanged. -/
theorem claim8_concrete_vectors :
    (VarUint.fromU8 250).to_bytes = [0xfa]
    ∧ (VarUint.fromU16 4444).to_bytes = [0xfd, 0x5c, 0x11]
    ∧ (VarUint.fromU16 515).to_bytes = [0xfd, 0x03, 0x02]
    ∧ (VarUint.fromU32 3333333333).to_bytes = [0xfe, 0x55, 0xa1, 0xae, 0xc6]
    ∧ (VarUint.fromU64 9000000000000000000).to_bytes
        = [0xff, 0x00, 0x00, 0x84, 0xe2, 0x50, 0x6c, 0xe6, 0x7c]
    ∧ VarUint.read_from [0xfe, 0x55, 0xa1, 0xae, 0xc6]
        = .ok (VarUint.fromU32 3333333333, [])
    ∧ (VarUint.fromU32 3333333333).to_bytes = [0xfe, 0x55, 0xa1, 0xae, 0xc6] :=
  ⟨rfl, rfl, rfl, rfl, rfl, rfl, rfl⟩

/-- C9: for every u8 value `v`, including 253 to 255, `From<u8>` produces
a `VarUint` with numeric value `v` and encoded buffer exactly `[v]`; for
`v` in 253 to 255 that single byte is one of the marker bytes 0xfd, 0xfe,
0xff and is not the canonical encoding of `v`. -/
theorem claim9_from_u8_verbatim (v : Nat) (hv : v < 256) :
    (VarUint.fromU8 v).value = v
    ∧ (VarUint.fromU8 v).buf = [v]
    ∧ (0xfd ≤ v →
        (v = 0xfd ∨ v = 0xfe ∨ v = 0xff)
        ∧ (VarUint.fromU8 v).buf ≠ specCanonicalEncoding v) := by
  refine ⟨rfl, rfl, fun hm => ⟨by omega, ?_⟩⟩
  interval_cases v <;> decide

/-- Witness for C9 at the concrete marker value 254. -/
theorem claim9_from_u8_verbatim_witness :
    (VarUint.fromU8 254).buf ≠ specCanonicalEncoding 254 :=
  ((claim9_from_u8_verbatim 254 (by decide)).2.2 (by decide)).2

/-- C5: the defensive fallback arm of `read_from` is unreachable on byte
input: for every stream whose entries are bytes, `read_from` never
returns the `InvalidData` failure, because every possible first byte 0x00
to 0xff is matched by one of the four dispatch arms. -/
theorem claim5_fallback_unreachable (s : List Nat) (hbytes : ∀ b ∈ s, b < 256) :
    VarUint.read_from s ≠ Except.error IoError.invalidData := by
  cases s with
  | nil => simp [VarUint.read_from, readU8]
  | cons b rest =>
    have hb : b < 256 := hbytes b (List.mem_cons_self b rest)
    simp only [VarUint.read_from, readU8]
    split_ifs with h1 h2 h3 h4
    · simp
    · cases hr : readLE 2 rest with
      | error e => simp [hr, readLE_error hr]
      | ok p => simp [hr]
    · cases hr : readLE 4 rest with
      | error e => simp [hr, readLE_error hr]
      | ok p => simp [hr]
    · cases hr : readLE 8 rest with
      | error e => simp [hr, readLE_error hr]
      | ok p => simp [hr]
    · omega

/-- Witness for C5 on the concrete one-byte stream `[0x12]`. -/
theorem claim5_fallback_unreachable_witness :
    VarUint.read_from [0x12] ≠ Except.error IoError.invalidData :=
  claim5_fallback_unreachable [0x12] (by decide)

theorem leValue_lt (bs : List Nat) (hb : ∀ b ∈ bs, b < 256) :
    leValue bs < 256 ^ bs.length := by
  induction bs with
  | nil => simp [leValue]
  | cons b bs ih =>
    have hblt : b < 256 := hb b (List.mem_cons_self b bs)
    have hrest := ih (fun x hx => hb x (List.mem_cons_of_mem b hx))
    simp only [leValue, List.length_cons]
    have h2 : (256 : Nat) ^ (bs.length + 1) = 256 * 256 ^ bs.length := by ring
    rw [h2]
    omega

theorem readLE_ok {w : Nat} {s : List Nat} {v : Nat} {r : List Nat}
    (h : readLE w s = .ok (v, r)) :
    w ≤ s.length ∧ v = leValue (s.take w) ∧ r = s.drop w := by
  unfold readLE at h
  split at h
  · next hw =>
    simp only [Except.ok.injEq, Prod.mk.injEq] at h
    exact ⟨hw, h.1.symm, h.2.symm⟩
  · exact absurd h (by simp)

theorem leBytes_take {w : Nat} {s : List Nat} (hw : w ≤ s.length)
    (hb : ∀ b ∈ s, b < 256) : leBytes w (leValue (s.take w)) = s.take w := by
  have hlen : (s.take w).length = w := by
    rw [List.length_take]
    omega
  have h := leBytes_leValue (s.take w) (fun x hx => hb x (List.take_subset w s hx))
  rw [hlen] at h
  exact h

theorem read_from_ok_bytes (s : List Nat) (hbytes : ∀ b ∈ s, b < 256)
    (v : VarUint) (rest : List Nat) (h : VarUint.read_from s = .ok (v, rest)) :
    v.to_bytes ++ rest = s := by
  cases s with
  | nil => exact absurd h (by simp [VarUint.read_from, readU8])
  | cons b tail =>
    have htail : ∀ x ∈ tail, x < 256 := fun x hx => hbytes x (List.mem_cons_of_mem b hx)
    have hb : b < 256 := hbytes b (List.mem_cons_self b tail)
    simp only [VarUint.read_from, readU8] at h
    split_ifs at h with h1 h2 h3 h4
    · simp only [Except.ok.injEq, Prod.mk.injEq] at h
      obtain ⟨hv, hr⟩ := h
      subst hv hr
      simp [VarUint.fromU8, VarUint.new, VarUint.newLogged, VarUint.to_bytes]
    · subst h2
      cases hr : readLE 2 tail with
      | error e => rw [hr] at h; exact absurd h (by simp)
      | ok p =>
        obtain ⟨val, r2⟩ := p
        rw [hr] at h
        simp only [Except.ok.injEq, Prod.mk.injEq] at h
        obtain ⟨hv, hrest⟩ := h
        obtain ⟨hw, hval, hr2⟩ := readLE_ok hr
        subst hv hrest hval hr2
        simp only [VarUint.fromU16, VarUint.new, VarUint.newLogged, VarUint.to_bytes]
        rw [leBytes_take hw htail, List.cons_append, List.take_append_drop]
    · subst h3
      cases hr : readLE 4 tail with
      | error e => rw [hr] at h; exact absurd h (by simp)
      | ok p =>
        obtain ⟨val, r2⟩ := p
        rw [hr] at h
        simp only [Except.ok.injEq, Prod.mk.injEq] at h
        obtain ⟨hv, hrest⟩ := h
        obtain ⟨hw, hval, hr2⟩ := readLE_ok hr
        subst hv hrest hval hr2
        simp only [VarUint.fromU32, VarUint.new, VarUint.newLogged, VarUint.to_bytes]
        rw [leBytes_take hw htail, List.cons_append, List.take_append_drop]
    · subst h4
      cases hr : readLE 8 tail with
      | error e => rw [hr] at h; exact absurd h (by simp)
      | ok p =>
        obtain ⟨val, r2⟩ := p
        rw [hr] at h
        simp only [Except.ok.injEq, Prod.mk.injEq] at h
        obtain ⟨hv, hrest⟩ := h
        obtain ⟨hw, hval, hr2⟩ := readLE_ok hr
        subst hv hrest hval hr2
        simp only [VarUint.fromU64, VarUint.new, VarUint.newLogged, VarUint.to_bytes]
        rw [leBytes_take hw htail, List.cons_append, List.take_append_drop]

/-- C3: `read_from` dispatches on the first byte read: a first byte in
0x00 to 0xfc is itself the decoded value and no further bytes are read;
0xfd reads 2 more bytes, 0xfe reads 4, 0xff reads 8, each interpreted as
a little-endian unsigned value of the matching width (the final conjunct
bounds the decoded payload by its width), and the matching width-class
constructor is applied. -/
theorem claim3_dispatch (b : Nat) (payload rest : List Nat)
    (hp : ∀ x ∈ payload, x < 256) :
    (b ≤ 0xfc → VarUint.read_from (b :: rest) = .ok (VarUint.fromU8 b, rest))
    ∧ (payload.length = 2 →
        VarUint.read_from (0xfd :: (payload ++ rest))
          = .ok (VarUint.fromU16 (leValue payload), rest))
    ∧ (payload.length = 4 →
        VarUint.read_from (0xfe :: (payload ++ rest))
          = .ok (VarUint.fromU32 (leValue payload), rest))
    ∧ (payload.length = 8 →
        VarUint.read_from (0xff :: (payload ++ rest))
          = .ok (VarUint.fromU64 (leValue payload), rest))
    ∧ leValue payload < 256 ^ payload.length := by
  refine ⟨fun h => ?_, fun hlen => ?_, fun hlen => ?_, fun hlen => ?_,
    leValue_lt payload hp⟩
  · simp [VarUint.read_from, readU8, h]
  all_goals
    have htake := List.take_left payload rest
    have hdrop := List.drop_left payload rest
    rw [hlen] at htake hdrop
    simp [VarUint.read_from, readU8, readLE, htake, hdrop, List.length_append, hlen]

/-- Witness for C3: decoding the concrete stream `0xfd 0x5c 0x11` reads
the two payload bytes as the little-endian 16-bit value. -/
theorem claim3_dispatch_witness :
    VarUint.read_from (0xfd :: ([0x5c, 0x11] ++ []))
      = .ok (VarUint.fromU16 (leValue [0x5c, 0x11]), []) :=
  (claim3_dispatch 0 [0x5c, 0x11] [] (by decide)).2.1 rfl

/-- C4: when the byte source cannot supply the required bytes, `read_from`
fails with the reader's error and returns no `VarUint`: an empty source
fails on the first byte, and a marker byte followed by fewer payload
bytes than it demands fails on the payload read; the final conjunct
records that the embedding is total, so every outcome is either a full
result or a propagated error, never a partial value or a panic. -/
theorem claim4_short_read (b : Nat) (rest : List Nat) :
    VarUint.read_from [] = Except.error IoError.unexpectedEof
    ∧ (b = 0xfd → rest.length < 2 →
        VarUint.read_from (b :: rest) = Except.error IoError.unexpectedEof)
    ∧ (b = 0xfe → rest.length < 4 →
        VarUint.read_from (b :: rest) = Except.error IoError.unexpectedEof)
    ∧ (b = 0xff → rest.length < 8 →
        VarUint.read_from (b :: rest) = Except.error IoError.unexpectedEof)
    ∧ ((∃ v r2, VarUint.read_from (b :: rest) = .ok (v, r2))
        ∨ (∃ e, VarUint.read_from (b :: rest) = .error e)) := by
  refine ⟨rfl, fun hb hlen => ?_, fun hb hlen => ?_, fun hb hlen => ?_, ?_⟩
  · subst hb
    simp [VarUint.read_from, readU8, readLE, show ¬(2 ≤ rest.length) from by omega]
  · subst hb
    simp [VarUint.read_from, readU8, readLE, show ¬(4 ≤ rest.length) from by omega]
  · subst hb
    simp [VarUint.read_from, readU8, readLE, show ¬(8 ≤ rest.length) from by omega]
  · cases h : VarUint.read_from (b :: rest) with
    | ok p => exact Or.inl ⟨p.1, p.2, by simp⟩
    | error e => exact Or.inr ⟨e, rfl⟩

/-- Witness for C4: the one-byte stream `[0xfd]` demands two payload
bytes and fails with the end-of-input error. -/
theorem claim4_short_read_witness :
    VarUint.read_from (0xfd :: []) = Except.error IoError.unexpectedEof :=
  (claim4_short_read 0xfd []).2.1 rfl (by decide)

/-- C10: on every successful `read_from` over a byte stream, the returned
`VarUint` stores exactly the bytes consumed from the reader (its buffer
followed by the unconsumed remainder reassembles the input), and no
minimality check is performed: the non-minimal input
`[0xfd, 0x05, 0x00]` is accepted, yielding value 5 with those three
bytes stored verbatim. -/
theorem claim10_read_stores_consumed :
    (∀ s, (∀ b ∈ s, b < 256) → ∀ v rest, VarUint.read_from s = .ok (v, rest) →
      v.to_bytes ++ rest = s)
    ∧ VarUint.read_from [0xfd, 0x05, 0x00]
        = .ok ({ value := 5, buf := [0xfd, 0x05, 0x00] }, []) :=
  ⟨read_from_ok_bytes, rfl⟩

/-- Witness for C10 on the concrete stream `[0x07, 0x09]`: the decoded
value stores `[0x07]` and leaves `[0x09]` unconsumed. -/
theorem claim10_read_stores_consumed_witness :
    (VarUint.fromU8 7).to_bytes ++ [9] = [7, 9] :=
  claim10_read_stores_consumed.1 [7, 9] (by decide) (VarUint.fromU8 7) [9] rfl

/-- C1 as stated is false: the codec does construct non-minimal
encodings. `From<u16>` applied to 5 stores `[0xfd, 0x05, 0x00]`, while
the canonical minimal-width encoding of the stored value 5 under the
size-class rule is the single byte `[0x05]`. -/
theorem claim1_counterexample :
    (VarUint.fromU16 5).buf ≠ specCanonicalEncoding (VarUint.fromU16 5).value := by
  decide

/-- C1 amended: each width-specific constructor stores the fixed encoding
of its own width class (one bare byte for u8, marker 0xfd/0xfe/0xff plus
the 2/4/8 little-endian bytes for u16/u32/u64), and for every value
representable in the constructor's width the stored buffer is the
canonical minimal-width encoding of the stored value if and only if the
value lies in the width class's designated range (0 to 252 for u8, 253
to 65535 for u16, 65536 to 2^32 - 1 for u32, at least 2^32 for u64);
outside that range the constructor stores a non-canonical buffer.
`read_from` stores the consumed bytes verbatim, so a decoded `VarUint`'s
buffer is canonical exactly when the consumed input was the canonical
encoding of the decoded value: in particular decoding the non-minimal
input `[0xfd, 0x05, 0x00]` constructs a non-minimal buffer for value 5. -/
theorem claim1_amended (v : Nat) :
    (VarUint.fromU8 v).buf = [v]
    ∧ (VarUint.fromU16 v).buf = 0xfd :: leBytes 2 v
    ∧ (VarUint.fromU32 v).buf = 0xfe :: leBytes 4 v
    ∧ (VarUint.fromU64 v).buf = 0xff :: leBytes 8 v
    ∧ (v < 2 ^ 8 →
        ((VarUint.fromU8 v).buf = specCanonicalEncoding (VarUint.fromU8 v).value
          ↔ v ≤ 0xfc))
    ∧ (v < 2 ^ 16 →
        ((VarUint.fromU16 v).buf = specCanonicalEncoding (VarUint.fromU16 v).value
          ↔ 0xfd ≤ v))
    ∧ (v < 2 ^ 32 →
        ((VarUint.fromU32 v).buf = specCanonicalEncoding (VarUint.fromU32 v).value
          ↔ 0x10000 ≤ v))
    ∧ (v < 2 ^ 64 →
        ((VarUint.fromU64 v).buf = specCanonicalEncoding (VarUint.fromU64 v).value
          ↔ 0x100000000 ≤ v))
    ∧ (∀ s w rest, (∀ b ∈ s, b < 256) → VarUint.read_from s = .ok (w, rest) →
        (w.buf = specCanonicalEncoding w.value
          ↔ s = specCanonicalEncoding w.value ++ rest))
    ∧ (VarUint.read_from [0xfd, 0x05, 0x00]
          = .ok ({ value := 5, buf := [0xfd, 0x05, 0x00] }, [])
        ∧ ({ value := 5, buf := [0xfd, 0x05, 0x00] } : VarUint).buf
            ≠ specCanonicalEncoding 5) := by
  refine ⟨rfl, rfl, rfl, rfl, fun hv => ?_, fun hv => ?_, fun hv => ?_, fun hv => ?_,
    fun s w rest hbytes h => ?_, rfl, by decide⟩
  · show [v] = specCanonicalEncoding v ↔ v ≤ 0xfc
    constructor
    · intro h
      by_contra hn
      rw [specCanonicalEncoding, if_neg hn, if_pos (by omega)] at h
      have := congrArg List.length h
      simp [leBytes_length] at this
    · intro h
      rw [specCanonicalEncoding, if_pos h]
  · show 0xfd :: leBytes 2 v = specCanonicalEncoding v ↔ 0xfd ≤ v
    constructor
    · intro h
      by_contra hn
      rw [specCanonicalEncoding, if_pos (by omega)] at h
      have := congrArg List.length h
      simp [leBytes_length] at this
    · intro h
      rw [specCanonicalEncoding, if_neg (by omega), if_pos (by omega)]
  · show 0xfe :: leBytes 4 v = specCanonicalEncoding v ↔ 0x10000 ≤ v
    constructor
    · intro h
      by_contra hn
      by_cases hc : v ≤ 0xfc
      · rw [specCanonicalEncoding, if_pos hc] at h
        have := congrArg List.length h
        simp [leBytes_length] at this
      · rw [specCanonicalEncoding, if_neg hc, if_pos (by omega)] at h
        simp at h
    · intro h
      rw [specCanonicalEncoding, if_neg (by omega), if_neg (by omega),
        if_pos (by omega)]
  · show 0xff :: leBytes 8 v = specCanonicalEncoding v ↔ 0x100000000 ≤ v
    constructor
    · intro h
      by_contra hn
      by_cases hc : v ≤ 0xfc
      · rw [specCanonicalEncoding, if_pos hc] at h
        have := congrArg List.length h
        simp [leBytes_length] at this
      · by_cases hc2 : v ≤ 0xffff
        · rw [specCanonicalEncoding, if_neg hc, if_pos hc2] at h
          simp at h
        · rw [specCanonicalEncoding, if_neg hc, if_neg hc2, if_pos (by omega)] at h
          simp at h
    · intro h
      rw [specCanonicalEncoding, if_neg (by omega), if_neg (by omega),
        if_neg (by omega)]
  · have hs := read_from_ok_bytes s hbytes w rest h
    simp only [VarUint.to_bytes] at hs
    constructor
    · intro hbuf
      rw [← hs, hbuf]
    · intro hcan
      exact List.append_cancel_right (hs.trans hcan)

/-- Witness for C1 amended: the u16 value 300 lies in the 16-bit class's
designated range, so its stored buffer is the canonical encoding. -/
theorem claim1_amended_witness :
    (VarUint.fromU16 300).buf = specCanonicalEncoding (VarUint.fromU16 300).value :=
  ((claim1_amended 300).2.2.2.2.2.1 (by norm_num)).mpr (by norm_num)

/-- C2 as stated is false: `From<u8>` makes the value 253 constructible
at width 8, its encoding is the single marker byte `[0xfd]`, and
decoding that byte sequence does not yield the value again: it demands
two further payload bytes and fails with the end-of-input error. -/
theorem claim2_counterexample :
    VarUint.read_from (VarUint.fromU8 253).to_bytes
      = Except.error IoError.unexpectedEof :=
  rfl

/-- C2 amended: decode after encode is the identity for every u8 value 0
to 252 and for all u16, u32 and u64 values, consuming the whole stream;
for the u8 values 253 to 255 the single stored byte is a marker and
decoding it fails instead of returning the value; and encode after
decode reproduces the consumed bytes unchanged for every successfully
decoded byte stream (canonically encoded ones included). -/
theorem claim2_amended :
    (∀ v : Nat, v ≤ 0xfc →
      VarUint.read_from (VarUint.fromU8 v).to_bytes = .ok (VarUint.fromU8 v, []))
    ∧ (∀ v : Nat, v < 2 ^ 16 →
      VarUint.read_from (VarUint.fromU16 v).to_bytes = .ok (VarUint.fromU16 v, []))
    ∧ (∀ v : Nat, v < 2 ^ 32 →
      VarUint.read_from (VarUint.fromU32 v).to_bytes = .ok (VarUint.fromU32 v, []))
    ∧ (∀ v : Nat, v < 2 ^ 64 →
      VarUint.read_from (VarUint.fromU64 v).to_bytes = .ok (VarUint.fromU64 v, []))
    ∧ (∀ s, (∀ b ∈ s, b < 256) → ∀ v rest, VarUint.read_from s = .ok (v, rest) →
      v.to_bytes ++ rest = s)
    ∧ (∀ v : Nat, 0xfd ≤ v → v ≤ 0xff →
      VarUint.read_from (VarUint.fromU8 v).to_bytes
        = Except.error IoError.unexpectedEof) := by
  refine ⟨fun v hv => ?_, fun v hv => ?_, fun v hv => ?_, fun v hv => ?_,
    read_from_ok_bytes, fun v h1 h2 => ?_⟩
  · show VarUint.read_from [v] = .ok (VarUint.fromU8 v, [])
    simp [VarUint.read_from, readU8, hv]
  · show VarUint.read_from (0xfd :: leBytes 2 v) = .ok (VarUint.fromU16 v, [])
    have hlen : (leBytes 2 v).length = 2 := leBytes_length 2 v
    have htake : (leBytes 2 v).take 2 = leBytes 2 v := by
      rw [← hlen]; exact List.take_length _
    have hdrop : (leBytes 2 v).drop 2 = [] := by
      rw [← hlen]; exact List.drop_length _
    have hval : leValue (leBytes 2 v) = v := by
      refine leValue_leBytes_of_lt ?_
      norm_num at hv ⊢
      omega
    simp [VarUint.read_from, readU8, readLE, hlen, htake, hdrop, hval]
  · show VarUint.read_from (0xfe :: leBytes 4 v) = .ok (VarUint.fromU32 v, [])
    have hlen : (leBytes 4 v).length = 4 := leBytes_length 4 v
    have htake : (leBytes 4 v).take 4 = leBytes 4 v := by
      rw [← hlen]; exact List.take_length _
    have hdrop : (leBytes 4 v).drop 4 = [] := by
      rw [← hlen]; exact List.drop_length _
    have hval : leValue (leBytes 4 v) = v := by
      refine leValue_leBytes_of_lt ?_
      norm_num at hv ⊢
      omega
    simp [VarUint.read_from, readU8, readLE, hlen, htake, hdrop, hval]
  · show VarUint.read_from (0xff :: leBytes 8 v) = .ok (VarUint.fromU64 v, [])
    have hlen : (leBytes 8 v).length = 8 := leBytes_length 8 v
    have htake : (leBytes 8 v).take 8 = leBytes 8 v := by
      rw [← hlen]; exact List.take_length _
    have hdrop : (leBytes 8 v).drop 8 = [] := by
      rw [← hlen]; exact List.drop_length _
    have hval : leValue (leBytes 8 v) = v := by
      refine leValue_leBytes_of_lt ?_
      norm_num at hv ⊢
      omega
    simp [VarUint.read_from, readU8, readLE, hlen, htake, hdrop, hval]
  · show VarUint.read_from [v] = Except.error IoError.unexpectedEof
    interval_cases v <;> rfl

/-- Witness for C2 amended: the u16 value 4444 round-trips through
encode then decode. -/
theorem claim2_amended_witness :
    VarUint.read_from (VarUint.fromU16 4444).to_bytes
      = .ok (VarUint.fromU16 4444, []) :=
  claim2_amended.2.1 4444 (by norm_num)
